import Mathlib

/-!
# GraphJin configuration layer: a shallow embedding

This file embeds, in Lean 4, the configuration data model and the
configuration-manipulating operations of the GraphJin core
(`core/config.go`, here `src/unnamed/part_002`) together with the service
initialisation code (`src/serv/init.go`), and proves the frozen claims
about them.

Go strings are modelled as Lean `String`; `strings.EqualFold` is modelled
as equality of `String.toLower` images (adequate for the ASCII identifiers
configurations use); Go slices as `List`; Go maps as association lists
with first-match lookup; Go functions stored in maps as opaque `Nat`
handles (only identity of the stored value matters to the claims); Go's
multiple-return `(T, error)` as `Except String T`.
-/

namespace GraphJin

/-- The case-folded image of a string, character by character
(Go `strings.ToLower` restricted to per-rune simple folding, which is all
`strings.EqualFold` needs on configuration identifiers). -/
def lowerKey (s : String) : List Char := s.toList.map Char.toLower

/-- Models Go `strings.EqualFold`: case-insensitive string equality. -/
def eqFold (a b : String) : Bool := lowerKey a == lowerKey b

/-- Table configuration for querying a table with a role
(Go `core.Query`).  The Go `int` limit is modelled as `Nat`
(row limits are non-negative counts; overflow is immaterial here). -/
structure Query where
  limit : Nat
  filters : List String
  columns : List String
  disableFunctions : Bool
  block : Bool
  deriving Repr, DecidableEq

/-- Table configuration for inserting into a table with a role
(Go `core.Insert`).  The Go `map[string]string` of presets is modelled
as an association list with first-match lookup. -/
structure Insert where
  filters : List String
  columns : List String
  presets : List (String × String)
  block : Bool
  deriving Repr, DecidableEq

/-- Table configuration for updating a table with a role (Go `core.Update`). -/
structure Update where
  filters : List String
  columns : List String
  presets : List (String × String)
  block : Bool
  deriving Repr, DecidableEq

/-- Table configuration for upsert on a table with a role (Go `core.Upsert`). -/
structure Upsert where
  filters : List String
  columns : List String
  presets : List (String × String)
  block : Bool
  deriving Repr, DecidableEq

/-- Table configuration for deleting from a table with a role (Go `core.Delete`). -/
structure Delete where
  filters : List String
  columns : List String
  block : Bool
  deriving Repr, DecidableEq

/-- Table configuration for a specific role (Go `core.RoleTable`). -/
structure RoleTable where
  name : String
  schema : String
  readOnly : Bool
  query : Option Query
  insert : Option Insert
  update : Option Update
  upsert : Option Upsert
  delete : Option Delete
  deriving Repr, DecidableEq, Inhabited

/-- Configuration for a user role (Go `core.Role`; the Go field `Match`
is rendered `matchRule` because `match` is a Lean keyword). -/
structure Role where
  name : String
  matchRule : String
  tables : List RoleTable
  deriving Repr, DecidableEq, Inhabited

/-- The slice of Go `core.Config` the claims are about: the allow-list and
production flags, the anonymous-block flag, the default row limit, the role
list and the resolver-constructor registry `rtmap`
(`map[string]refunc`, modelled as an association list whose values are
opaque `Nat` handles standing for the Go constructor functions). -/
structure Config where
  disableAllowList : Bool
  defaultBlock : Bool
  roles : List Role
  defaultLimit : Nat
  dbType : String
  production : Bool
  rtmap : List (String × Nat)
  deriving Repr, DecidableEq

/-- Splits a character list at the first occurrence of `sep`; `none` when
`sep` does not occur.  This is `strings.SplitN(s, sep, 2)` for a one-rune
separator, expressed structurally so the kernel can evaluate it. -/
def splitOnce (sep : Char) : List Char → Option (List Char × List Char)
  | [] => none
  | c :: cs =>
    if c = sep then some ([], cs)
    else
      match splitOnce sep cs with
      | none => none
      | some (a, b) => some (c :: a, b)

/-- Models the schema-qualification step of `AddRoleTable`/`RemoveRoleTable`:
Go `strings.SplitN(table, ".", 2)` followed by
`if len(v) == 2 { schema = v[0]; table = v[1] }` (schema defaults to `""`).
Returns `(schema, table)`. -/
def splitSchema (table : String) : String × String :=
  match splitOnce '.' table.toList with
  | none => ("", table)
  | some (a, b) => (⟨a⟩, ⟨b⟩)

example : splitSchema "users" = ("", "users") := by decide
example : splitSchema "public.users" = ("public", "users") := by decide
example : splitSchema "a.b.c" = ("a", "b.c") := by decide
example : eqFold "Anon" "anon" = true := by decide
example : eqFold "anon" "user" = false := by decide

/-- One of the five operation-policy values `AddRoleTable` accepts for its
`conf interface{}` argument (the five cases of its type switch; any other
type makes the Go function return an `unsupported object type` error, so
restricting the argument to these five loses no behaviour). -/
inductive RTConf where
  | query (q : Query)
  | insert (v : Insert)
  | update (v : Update)
  | upsert (v : Upsert)
  | delete (v : Delete)
  deriving Repr, DecidableEq

/-- The type switch at the end of `AddRoleTable`: store the policy in the
matching field of the `RoleTable`. -/
def setRTConf (t : RoleTable) : RTConf → RoleTable
  | .query q => { t with query := some q }
  | .insert v => { t with insert := some v }
  | .update v => { t with update := some v }
  | .upsert v => { t with upsert := some v }
  | .delete v => { t with delete := some v }

/-- A fresh `RoleTable` as `AddRoleTable` creates it:
`RoleTable{Name: table, Schema: schema}` (all other fields zero). -/
def newRoleTable (tname schema : String) : RoleTable :=
  { name := tname, schema := schema, readOnly := false,
    query := none, insert := none, update := none, upsert := none,
    delete := none }

/-- The table-lookup-or-append loop of `AddRoleTable`: find the first
`RoleTable` whose name and schema match case-insensitively and update it
in place, else append a fresh entry at the end. -/
def updTables (tname schema : String) (conf : RTConf) :
    List RoleTable → List RoleTable
  | [] => [setRTConf (newRoleTable tname schema) conf]
  | t :: ts =>
    if eqFold t.name tname && eqFold t.schema schema then
      setRTConf t conf :: ts
    else
      t :: updTables tname schema conf ts

/-- The per-role body of `AddRoleTable`: split the optional schema
qualifier off the table name, then update or append in the role's table
list. -/
def addTableToRole (r : Role) (table : String) (conf : RTConf) : Role :=
  { r with tables :=
      updTables (splitSchema table).2 (splitSchema table).1 conf r.tables }

/-- The role-lookup-or-append loop of `AddRoleTable`: find the first
`Role` whose name matches case-insensitively and update it in place, else
append `Role{Name: role}` at the end, then add the table to that role. -/
def updRoles (role table : String) (conf : RTConf) : List Role → List Role
  | [] => [addTableToRole { name := role, matchRule := "", tables := [] } table conf]
  | r :: rs =>
    if eqFold r.name role then
      addTableToRole r table conf :: rs
    else
      r :: updRoles role table conf rs

/-- Go `(*Config).AddRoleTable`.  With the argument restricted to the five
supported policy types (`RTConf`) the Go function never returns an error,
so the embedding is total. -/
def Config.addRoleTable (c : Config) (role table : String) (conf : RTConf) :
    Config :=
  { c with roles := updRoles role table conf c.roles }

/-- Go `(*Config).RemoveRoleTable`.  Errors (`role not found`,
`table not found`) are returned before the Go code mutates anything, so the
functional embedding returns `Except`: an error carries no new config,
matching the Go receiver being left unchanged. -/
def Config.removeRoleTable (c : Config) (role table : String) :
    Except String Config :=
  match c.roles.findIdx? (fun r => eqFold r.name role) with
  | none => .error ("role not found: " ++ role)
  | some ri =>
    let tables := (c.roles[ri]?.getD default).tables
    let schema := (splitSchema table).1
    let tname := (splitSchema table).2
    match tables.findIdx? (fun t => eqFold t.name tname && eqFold t.schema schema) with
    | none => .error ("table not found: " ++ tname)
    | some ti =>
      let tables' := tables.eraseIdx ti
      if tables'.isEmpty then
        .ok { c with roles := c.roles.eraseIdx ri }
      else
        .ok { c with roles :=
          c.roles.set ri { (c.roles[ri]?.getD default) with tables := tables' } }

/-- Go `(*Config).SetResolver`.  A `nil` map and an empty map behave
identically for lookup and insert, so `rtmap` starts at `[]`; the Go
function mutates nothing before returning its error. -/
def Config.setResolver (c : Config) (name : String) (fn : Nat) :
    Except String Config :=
  if (c.rtmap.lookup name).isSome then
    .error ("resolver defined: " ++ name)
  else
    .ok { c with rtmap := c.rtmap ++ [(name, fn)] }

/-- An authentication method entry (`serv` auth config; only the fields
`init.go` reads: the name used for duplicate detection and referencing
from actions, and the type checked against `""`/`"none"`). -/
structure Auth where
  name : String
  type : String
  deriving Repr, DecidableEq

/-- An action entry (`serv` config; `init.go` reads its name and the auth
it references). -/
structure Action where
  name : String
  authName : String
  deriving Repr, DecidableEq

/-- The slice of the service configuration (`serv.Config`; its declaration
is outside the excerpt but every field here is determined by its uses in
`src/serv/init.go`).  `core` is the embedded core `Config`; `dbtype` is
`DB.Type`; `servHostPort`/`servHost`/`servPort`/`servProduction` are the
server-section fields `HostPort`, `Host`, `Port`, `Production`; `dirty`
and `hostPort` are the unexported mutable fields of the same names. -/
structure ServConfig where
  core : Config
  authFailBlock : Bool
  auths : List Auth
  actions : List Action
  hotDeploy : Bool
  adminSecretKey : String
  auth : Auth
  dbtype : String
  servHostPort : String
  servHost : String
  servPort : String
  servProduction : Bool
  dirty : Bool
  hostPort : String
  deriving Repr, DecidableEq

/-- The service state `init.go` mutates: its configuration and the admin
secret hash `asec` (Go `[32]byte` holding `sha256.Sum256` of the admin
key; modelled as `Option Nat`, the output of an uninterpreted hash
function once assigned). -/
structure Service where
  conf : ServConfig
  asec : Option Nat
  deriving Repr, DecidableEq

/-- Go `validateConf` (`src/serv/init.go`).  It cannot fail (it returns
nothing in Go); the returned `Bool` records whether the warning
`"unauthenticated requests will be blocked. no role 'anon' defined"` was
logged.  Note the role-name comparison is exact (`r.Name == "anon"`). -/
def validateConf (s : Service) : Service × Bool :=
  let anonFound := s.conf.core.roles.any (fun r => r.name == "anon")
  if !anonFound && s.conf.core.defaultBlock then
    ({ s with conf := { s.conf with authFailBlock := false } }, true)
  else
    (s, false)

/-- The auth validate-and-sanitize loop of `initConfig`: walk the auth
list building the name set `am`, failing on a duplicate name. -/
def checkAuths : List Auth → List String → Except String (List String)
  | [], am => .ok am
  | a :: rest, am =>
    if am.contains a.name then .error ("duplicate auth found: " ++ a.name)
    else checkAuths rest (a.name :: am)

/-- The action validate-and-sanitize loop of `initConfig`: fail on a
duplicate action name or on an action referencing an unknown auth name. -/
def checkActions (am : List String) : List Action → List String → Except String Unit
  | [], _ => .ok ()
  | a :: rest, axm =>
    if axm.contains a.name then .error ("duplicate action found: " ++ a.name)
    else if !(am.contains a.authName) then
      .error ("invalid auth name: " ++ a.authName ++ ", For auth: " ++ a.name)
    else checkActions am rest (a.name :: axm)

/-- The default `host:port` fallback constant `defaultHP`, declared
outside the excerpt; its concrete value is immaterial to every claim. -/
def defaultHP : String := "0.0.0.0:8080"

/-- Go `strings.SplitN(s, ":", 2)` restricted to the `len(hp) == 2`
test of `initConfig`: `some` exactly when `":"` occurs. -/
def splitHostPort (s : String) : Option (String × String) :=
  match splitOnce ':' s.toList with
  | none => none
  | some (a, b) => some (⟨a⟩, ⟨b⟩)

/-- The opening mutations of `initConfig`, before any validation:
`c.dirty = true` and the copy of `db_type` from `database.type` when the
core value is empty. -/
def preConf (s : Service) : ServConfig :=
  let c1 := { s.conf with dirty := true }
  if c1.core.dbType = "" then
    { c1 with core := { c1.core with dbType := c1.dbtype } }
  else c1

/-- The admin-secret step of `initConfig`: under hot deploy a non-empty
`admin_secret_key` is hashed into `asec` and an empty one is a startup
error; without hot deploy `asec` is left as it was. -/
def adminSecret (sha : String → Nat) (c : ServConfig) (asec0 : Option Nat) :
    Except String (Option Nat) :=
  if c.hotDeploy then
    if c.adminSecretKey ≠ "" then Except.ok (some (sha c.adminSecretKey))
    else Except.error "please set an admin_secret_key"
  else Except.ok asec0

/-- The configuration rewriting `initConfig` performs after its
validation passes: disable `Core.DefaultBlock` when no auth is configured
(`Auth.Type` empty or `"none"`), resolve `hostPort` from
`HostPort`/`Host`/`Port` with the `defaultHP` fallback, and copy
`Serv.Production` into `Core.Production`. -/
def finalizeConf (c2 : ServConfig) : ServConfig :=
  let c3 :=
    if c2.auth.type = "" ∨ c2.auth.type = "none" then
      { c2 with core := { c2.core with defaultBlock := false } }
    else c2
  let c4 :=
    match splitHostPort c3.servHostPort with
    | some hp =>
      let h := if c3.servHost ≠ "" then c3.servHost else hp.1
      let p := if c3.servPort ≠ "" then c3.servPort else hp.2
      { c3 with hostPort := h ++ ":" ++ p }
    | none => c3
  let c5 := if c4.hostPort = "" then { c4 with hostPort := defaultHP } else c4
  { c5 with core := { c5.core with production := c5.servProduction } }

/-- Go `(*service).initConfig` (`src/serv/init.go`).  `sha` is the
`sha256.Sum256` function, left uninterpreted (its implementation lives in
the Go standard library): the theorems hold for every hash function, which
is exactly what "stores only the hash" means.  Errors are returned before
the service is handed back, modelling a failed startup. -/
def initConfig (sha : String → Nat) (s : Service) : Except String Service :=
  let c2 := preConf s
  match checkAuths c2.auths [] with
  | .error e => .error e
  | .ok am =>
    match adminSecret sha c2 s.asec with
    | .error e => .error e
    | .ok asec1 =>
      match checkActions am c2.actions [] with
      | .error e => .error e
      | .ok _ => .ok { s with conf := finalizeConf c2, asec := asec1 }

/-- An on-disk configuration file as the config reader sees it: its
top-level `inherits` key and its remaining key→value data (the rest of
the YAML/JSON tree, abstracted to a flat association list; `viper`
reading and decoding is an external library modelled only at this
boundary). -/
structure CFile where
  inherits : String
  data : List (String × String)
  deriving Repr, DecidableEq

/-- Viper `MergeInConfig` at the lookup level: keys of `over` (the file
merged in last) take precedence over keys of `base`, via first-match
lookup in the concatenation. -/
def mergeOver (base over : List (String × String)) : List (String × String) :=
  over ++ base

/-- Go `readInConfig` (`src/unnamed/part_002`): read the named file
through an abstract filesystem `fsys` (standing for viper + afero); when
its `inherits` key is non-empty, read the inherited file first, refuse an
inherited file that itself inherits, then merge the original file over
it.  Path resolution, the `GJ_`/`SJ_` environment overlay and struct
decoding are orthogonal to the claim and elided. -/
def readInConfig (fsys : String → Option CFile) (configFile : String) :
    Except String (List (String × String)) :=
  match fsys configFile with
  | none => .error ("config file not found: " ++ configFile)
  | some cf =>
    if cf.inherits ≠ "" then
      match fsys cf.inherits with
      | none => .error ("config file not found: " ++ cf.inherits)
      | some pcf =>
        if pcf.inherits ≠ "" then
          .error ("inherited config " ++ cf.inherits ++
            " cannot itself inherit " ++ pcf.inherits)
        else
          .ok (mergeOver pcf.data cf.data)
    else
      .ok cf.data

/-- A compiled artifact as stored in the Allow-List Store: its generated
SQL (spec §3, Compiled Artifact). -/
structure Artifact where
  sql : String
  deriving Repr, DecidableEq

/-- The client-facing error classes of the request pipeline the claims
mention (spec §7). -/
inductive GJError where
  | accessDenied
  | compileError (msg : String)
  deriving Repr, DecidableEq

/-- Instrumentation marking which pipeline stages ran for a request:
compiling the query text, and attempting SQL generation (spec §2
control flow). -/
inductive Step where
  | compileQueryText
  | sqlGeneration
  deriving Repr, DecidableEq

/-- Locked mode (spec §4.4): production with the allow list not
disabled.  The two flags are `Config.Production` and
`Config.DisableAllowList` of `src/unnamed/part_002`. -/
def lockedMode (c : Config) : Bool := c.production && !c.disableAllowList

/-- Modelled from the spec: the per-request compile pipeline with its
Allow-List Store gate (spec §4.4, §2); the compiler and store sources are
missing from the excerpt — only the `Production` and `DisableAllowList`
flags appear there.  `store` is the Allow-List Store (fingerprint →
artifact), `compile` stands for the qcode compiler on the query text and
`gen` for the SQL generator; the returned trace records which of those
stages ran for the request. -/
def compileRequest (c : Config) (store : List (String × Artifact))
    (fp queryText : String) (compile : String → Except GJError String)
    (gen : String → String) : Except GJError Artifact × List Step :=
  match store.lookup fp with
  | some art => (.ok art, [])
  | none =>
    if lockedMode c then
      (.error .accessDenied, [])
    else
      match compile queryText with
      | .error e => (.error e, [.compileQueryText])
      | .ok tree => (.ok { sql := gen tree }, [.compileQueryText, .sqlGeneration])

/-- Modelled from the spec: the preset-merge step of the mutation
compiler (spec §4.2 step 5: "merges presets into the column→value map,
with preset values unconditionally winning"); the compiler sources are
missing from the excerpt — only the `Presets` policy fields appear there.
Client bindings for a column that has a preset are dropped; preset
bindings come first, so first-match lookup always yields the preset. -/
def applyPresets (presets input : List (String × String)) :
    List (String × String) :=
  presets ++ input.filter (fun p => (presets.lookup p.1).isNone)

/-- The final write payload of an insert compiled under a role whose
policy is `pol`, for client input `input`. -/
def insertPayload (pol : Insert) (input : List (String × String)) :
    List (String × String) :=
  applyPresets pol.presets input

/-- The final write payload of an update compiled under a role whose
policy is `pol`. -/
def updatePayload (pol : Update) (input : List (String × String)) :
    List (String × String) :=
  applyPresets pol.presets input

/-- The final write payload of an upsert compiled under a role whose
policy is `pol`. -/
def upsertPayload (pol : Upsert) (input : List (String × String)) :
    List (String × String) :=
  applyPresets pol.presets input

/-- Modelled from the spec: the effective-limit computation (spec §3
invariant and §4.2 step 8: "minimum of client-requested limit, RoleTable
Query limit, global default limit"); the compiler sources are missing
from the excerpt — only the bounds `Query.Limit` and
`Config.DefaultLimit` appear there. -/
def effectiveLimit (c : Config) (pol : Query) (requested : Nat) : Nat :=
  min requested (min pol.limit c.defaultLimit)

/-! ## General lemmas about association-list lookup -/

theorem lookup_append {α β : Type} [BEq α] (l₁ l₂ : List (α × β)) (k : α) :
    (l₁ ++ l₂).lookup k = ((l₁.lookup k).orElse (fun _ => l₂.lookup k)) := by
  induction l₁ with
  | nil => rfl
  | cons p rest ih =>
    obtain ⟨a, b⟩ := p
    by_cases h : (k == a) = true
    · simp [List.lookup, h]
    · simp only [Bool.not_eq_true] at h
      simp [List.lookup, h, ih]

theorem lookup_append_left {α β : Type} [BEq α] {l₁ : List (α × β)}
    (l₂ : List (α × β)) {k : α} {v : β} (h : l₁.lookup k = some v) :
    (l₁ ++ l₂).lookup k = some v := by
  rw [lookup_append, h]; rfl

/-! ## C1: the locked-mode allow-list gate fails closed -/

/-- C1: in locked mode (production with the allow list not disabled),
compiling a fingerprint absent from the Allow-List Store fails with
`AccessDeniedError`, the query text is never compiled at request time,
and no SQL generation attempt is triggered (the stage trace is empty). -/
theorem locked_absent_fingerprint_fails_closed
    (c : Config) (store : List (String × Artifact)) (fp queryText : String)
    (compile : String → Except GJError String) (gen : String → String)
    (hprod : c.production = true) (hallow : c.disableAllowList = false)
    (habsent : store.lookup fp = none) :
    compileRequest c store fp queryText compile gen =
      (.error .accessDenied, []) := by
  simp [compileRequest, habsent, lockedMode, hprod, hallow]

/-- A production configuration with the allow list enabled. -/
def lockedConfig : Config :=
  { disableAllowList := false, defaultBlock := true, roles := [],
    defaultLimit := 20, dbType := "postgres", production := true, rtmap := [] }

theorem locked_absent_fingerprint_fails_closed_witness :
    compileRequest lockedConfig [] "fp1" "query { users { id } }"
      (fun t => .ok t) (fun t => t) = (.error .accessDenied, []) :=
  locked_absent_fingerprint_fails_closed lockedConfig [] "fp1"
    "query { users { id } }" (fun t => .ok t) (fun t => t) rfl rfl rfl

/-! ## C2: presets always win over client input -/

/-- C2: for every mutation kind (insert, update, upsert) whose role policy
configures a preset for a column, the value bound for that column in the
final write payload is the configured preset value, for every client
input — a conflicting client binding included. -/
theorem preset_always_wins (ins : Insert) (upd : Update) (ups : Upsert)
    (input : List (String × String)) (col v : String) :
    (ins.presets.lookup col = some v →
      (insertPayload ins input).lookup col = some v) ∧
    (upd.presets.lookup col = some v →
      (updatePayload upd input).lookup col = some v) ∧
    (ups.presets.lookup col = some v →
      (upsertPayload ups input).lookup col = some v) :=
  ⟨fun h => lookup_append_left _ h,
   fun h => lookup_append_left _ h,
   fun h => lookup_append_left _ h⟩

/-- The spec §8 scenario: preset `user_id ↦ "$user_id"` with a client
trying to write `user_id = "999"`. -/
def presetScenario : Insert :=
  { filters := [], columns := ["title", "user_id"],
    presets := [("user_id", "$user_id")], block := false }

theorem preset_always_wins_witness :
    (insertPayload presetScenario
      [("title", "hi"), ("user_id", "999")]).lookup "user_id" =
      some "$user_id" :=
  (preset_always_wins presetScenario
    { filters := [], columns := [], presets := [], block := false }
    { filters := [], columns := [], presets := [], block := false }
    [("title", "hi"), ("user_id", "999")] "user_id" "$user_id").1 (by decide)

/-! ## C4: the effective row limit is the minimum of the three bounds -/

/-- C4: the effective row limit equals the minimum of the client-requested
limit, the RoleTable Query-policy limit and the global default limit, and
therefore never exceeds any one of the three configured bounds. -/
theorem effectiveLimit_is_min (c : Config) (pol : Query) (requested : Nat) :
    effectiveLimit c pol requested =
      min requested (min pol.limit c.defaultLimit) ∧
    effectiveLimit c pol requested ≤ requested ∧
    effectiveLimit c pol requested ≤ pol.limit ∧
    effectiveLimit c pol requested ≤ c.defaultLimit := by
  refine ⟨rfl, ?_, ?_, ?_⟩ <;> simp [effectiveLimit]

/-! ## C3: a missing anon role only warns and clears AuthFailBlock -/

/-- C3: for every service whose role list has no role named `"anon"` and
whose `Core.DefaultBlock` is set, `validateConf` does not fail startup (it
is a total function — the Go original returns nothing), and its whole
effect is to clear `AuthFailBlock` and log the warning. -/
theorem validateConf_no_anon_only_warns (s : Service)
    (hanon : ∀ r ∈ s.conf.core.roles, r.name ≠ "anon")
    (hblock : s.conf.core.defaultBlock = true) :
    (validateConf s).1 =
      { s with conf := { s.conf with authFailBlock := false } } ∧
    (validateConf s).2 = true := by
  have hany : s.conf.core.roles.any (fun r => r.name == "anon") = false := by
    rw [List.any_eq_false]
    intro r hr
    simpa using hanon r hr
  constructor <;> simp [validateConf, hany, hblock]

/-- A core configuration with one role `user` and `default_block` on. -/
def exampleCore : Config :=
  { disableAllowList := false, defaultBlock := true,
    roles := [{ name := "user", matchRule := "", tables := [] }],
    defaultLimit := 20, dbType := "", production := false, rtmap := [] }

/-- A service configuration used to evaluate the theorems concretely:
roles `user` only, `default_block` on, hot deploy on with a key set, no
auth method configured. -/
def exampleServConf : ServConfig :=
  { core := exampleCore,
    authFailBlock := true,
    auths := [], actions := [],
    hotDeploy := true, adminSecretKey := "s3cr3t",
    auth := { name := "", type := "" },
    dbtype := "postgres",
    servHostPort := "0.0.0.0:8080", servHost := "", servPort := "",
    servProduction := true, dirty := false, hostPort := "" }

def noAnonService : Service := { conf := exampleServConf, asec := none }

theorem validateConf_no_anon_only_warns_witness :
    (validateConf noAnonService).1 =
      { noAnonService with
          conf := { noAnonService.conf with authFailBlock := false } } ∧
    (validateConf noAnonService).2 = true :=
  validateConf_no_anon_only_warns noAnonService (by decide) (by decide)

/-! ## C7: the resolver registry rejects duplicate registrations -/

/-- C7: `SetResolver` on an unregistered name adds exactly that one
mapping (the name now resolves to the new handle, every other name
resolves as before, and the registry grows by one entry) and returns no
error; on a name already registered it returns an error, so the first
registration is never overwritten. -/
theorem setResolver_registry (c : Config) (name : String) (fn : Nat) :
    (c.rtmap.lookup name = none →
      c.setResolver name fn = .ok { c with rtmap := c.rtmap ++ [(name, fn)] } ∧
      (c.rtmap ++ [(name, fn)]).lookup name = some fn ∧
      (∀ n, n ≠ name → (c.rtmap ++ [(name, fn)]).lookup n = c.rtmap.lookup n) ∧
      (c.rtmap ++ [(name, fn)]).length = c.rtmap.length + 1) ∧
    ((∃ f, c.rtmap.lookup name = some f) →
      c.setResolver name fn = .error ("resolver defined: " ++ name)) := by
  constructor
  · intro h
    refine ⟨by simp [Config.setResolver, h], ?_, ?_, by simp⟩
    · rw [lookup_append, h]
      simp [List.lookup]
    · intro n hn
      rw [lookup_append]
      have hne : (n == name) = false := by simpa using hn
      cases hl : c.rtmap.lookup n <;> simp [List.lookup, hne, Option.orElse]
  · rintro ⟨f, hf⟩
    simp [Config.setResolver, hf]

/-- A registry already holding the name `redis`. -/
def registryConfig : Config :=
  { disableAllowList := false, defaultBlock := true, roles := [],
    defaultLimit := 20, dbType := "postgres", production := false,
    rtmap := [("redis", 1)] }

theorem setResolver_registry_witness :
    registryConfig.setResolver "http" 2 =
      .ok { registryConfig with rtmap := [("redis", 1), ("http", 2)] } ∧
    registryConfig.setResolver "redis" 2 =
      .error ("resolver defined: " ++ "redis") :=
  ⟨((setResolver_registry registryConfig "http" 2).1 (by decide)).1,
   (setResolver_registry registryConfig "redis" 2).2 ⟨1, by decide⟩⟩

/-! ## C6 and C8: initConfig -/

theorem preConf_auth (s : Service) : (preConf s).auth = s.conf.auth := by
  simp only [preConf]; split <;> rfl

theorem preConf_hotDeploy (s : Service) :
    (preConf s).hotDeploy = s.conf.hotDeploy := by
  simp only [preConf]; split <;> rfl

theorem preConf_adminSecretKey (s : Service) :
    (preConf s).adminSecretKey = s.conf.adminSecretKey := by
  simp only [preConf]; split <;> rfl

theorem finalizeConf_defaultBlock (c : ServConfig)
    (h : c.auth.type = "" ∨ c.auth.type = "none") :
    (finalizeConf c).core.defaultBlock = false := by
  simp only [finalizeConf, if_pos h]
  cases hsp : splitHostPort c.servHostPort <;> simp only [hsp] <;>
    (repeat' split) <;> rfl

/-- C6: with hot deployment enabled, `initConfig` fails when
`admin_secret_key` is empty, and every successful run stores as `asec`
exactly the hash image of the admin key — for an arbitrary hash function
`sha` standing for `sha256.Sum256`, so the stored credential is only ever
the hash, never the plaintext key. -/
theorem initConfig_admin_secret (sha : String → Nat) (s : Service)
    (hhot : s.conf.hotDeploy = true) :
    (s.conf.adminSecretKey = "" → ∃ e, initConfig sha s = .error e) ∧
    (∀ s', initConfig sha s = .ok s' →
      s'.asec = some (sha s.conf.adminSecretKey)) := by
  have hsec : adminSecret sha (preConf s) s.asec =
      (if s.conf.adminSecretKey ≠ "" then
        Except.ok (some (sha s.conf.adminSecretKey))
      else Except.error "please set an admin_secret_key") := by
    unfold adminSecret
    rw [preConf_hotDeploy, hhot, preConf_adminSecretKey]
    simp
  constructor
  · intro hkey
    rw [hkey] at hsec
    simp only [ne_eq, not_true_eq_false, if_false] at hsec
    cases ha : checkAuths (preConf s).auths [] with
    | error e => exact ⟨e, by simp [initConfig, ha]⟩
    | ok am =>
      exact ⟨"please set an admin_secret_key", by simp [initConfig, ha, hsec]⟩
  · intro s' h
    simp only [initConfig] at h
    cases ha : checkAuths (preConf s).auths [] with
    | error e => simp only [ha] at h; exact Except.noConfusion h
    | ok am =>
      simp only [ha] at h
      by_cases hkey : s.conf.adminSecretKey = ""
      · rw [hkey] at hsec
        simp only [ne_eq, not_true_eq_false, if_false] at hsec
        simp only [hsec] at h
        exact Except.noConfusion h
      · rw [if_pos hkey] at hsec
        simp only [hsec] at h
        cases hc : checkActions am (preConf s).actions [] with
        | error e => simp only [hc] at h; exact Except.noConfusion h
        | ok u =>
          simp only [hc, Except.ok.injEq] at h
          subst h
          rfl

def hotService : Service := { conf := exampleServConf, asec := none }

def hotServiceNoKey : Service :=
  { conf := { exampleServConf with adminSecretKey := "" }, asec := none }

theorem initConfig_admin_secret_witness :
    (initConfig (fun k => k.length) hotServiceNoKey).toOption = none ∧
    (initConfig (fun k => k.length) hotService).toOption.map Service.asec =
      some (some 6) := by
  constructor
  · obtain ⟨e, he⟩ :=
      (initConfig_admin_secret (fun k => k.length) hotServiceNoKey rfl).1 rfl
    rw [he]; rfl
  · cases hres : initConfig (fun k => k.length) hotService with
    | error e =>
      have hok : (initConfig (fun k => k.length) hotService).toOption.isSome
          = true := by decide
      rw [hres] at hok
      simp [Except.toOption] at hok
    | ok s0 =>
      have h2 := (initConfig_admin_secret (fun k => k.length) hotService
        rfl).2 s0 hres
      simp [Except.toOption, h2]
      rfl

/-- C8: whenever `Auth.Type` is `""` or `"none"`, a successful
`initConfig` yields a service whose `Core.DefaultBlock` is `false`,
regardless of the `default_block` value the user configured. -/
theorem initConfig_no_auth_disables_defaultBlock (sha : String → Nat)
    (s : Service)
    (hauth : s.conf.auth.type = "" ∨ s.conf.auth.type = "none") :
    ∀ s', initConfig sha s = .ok s' → s'.conf.core.defaultBlock = false := by
  intro s' h
  simp only [initConfig] at h
  cases ha : checkAuths (preConf s).auths [] with
  | error e => simp only [ha] at h; exact Except.noConfusion h
  | ok am =>
    simp only [ha] at h
    cases hb : adminSecret sha (preConf s) s.asec with
    | error e => simp only [hb] at h; exact Except.noConfusion h
    | ok asec1 =>
      simp only [hb] at h
      cases hc : checkActions am (preConf s).actions [] with
      | error e => simp only [hc] at h; exact Except.noConfusion h
      | ok u =>
        simp only [hc, Except.ok.injEq] at h
        subst h
        exact finalizeConf_defaultBlock _ (by rw [preConf_auth]; exact hauth)

def noAuthService : Service :=
  { conf := { exampleServConf with
      core := { exampleServConf.core with defaultBlock := true },
      auth := { name := "a", type := "none" } }, asec := none }

theorem initConfig_no_auth_disables_defaultBlock_witness :
    (initConfig (fun k => k.length) noAuthService).toOption.map
      (fun s0 => s0.conf.core.defaultBlock) = some false := by
  cases hres : initConfig (fun k => k.length) noAuthService with
  | error e =>
    have hok : (initConfig (fun k => k.length) noAuthService).toOption.isSome
        = true := by decide
    rw [hres] at hok
    simp [Except.toOption] at hok
  | ok s0 =>
    have h2 := initConfig_no_auth_disables_defaultBlock (fun k => k.length)
      noAuthService (Or.inr rfl) s0 hres
    simp [Except.toOption, h2]

/-! ## C9: configuration inheritance is one level deep -/

/-- C9: `readInConfig` supports exactly one level of inheritance — an
inherited file whose own `inherits` key is non-empty is an error and no
configuration is returned — and on success the inherited file is read
first with the original file merged over it, so for every key the
original file's value takes precedence. -/
theorem readInConfig_inheritance (fsys : String → Option CFile)
    (configFile : String) (cf pcf : CFile)
    (hcf : fsys configFile = some cf) (hinh : cf.inherits ≠ "")
    (hpcf : fsys cf.inherits = some pcf) :
    (pcf.inherits ≠ "" → ∃ e, readInConfig fsys configFile = .error e) ∧
    (pcf.inherits = "" →
      readInConfig fsys configFile = .ok (mergeOver pcf.data cf.data) ∧
      ∀ k, (mergeOver pcf.data cf.data).lookup k =
        ((cf.data.lookup k).orElse (fun _ => pcf.data.lookup k))) := by
  constructor
  · intro h
    exact ⟨"inherited config " ++ cf.inherits ++ " cannot itself inherit " ++
        pcf.inherits, by simp [readInConfig, hcf, hinh, hpcf, h]⟩
  · intro h
    exact ⟨by simp [readInConfig, hcf, hinh, hpcf, h],
      fun k => lookup_append _ _ _⟩

def childFile : CFile :=
  { inherits := "base", data := [("port", "8080"), ("db", "dev")] }

def baseFile : CFile :=
  { inherits := "", data := [("db", "prod"), ("host", "x")] }

def badBaseFile : CFile := { inherits := "root", data := [] }

def exampleFS (name : String) : Option CFile :=
  if name = "dev.yml" then some childFile
  else if name = "base" then some baseFile
  else none

def badFS (name : String) : Option CFile :=
  if name = "dev.yml" then some childFile
  else if name = "base" then some badBaseFile
  else none

theorem readInConfig_inheritance_witness :
    (readInConfig badFS "dev.yml").toOption = none ∧
    readInConfig exampleFS "dev.yml" =
      .ok [("port", "8080"), ("db", "dev"), ("db", "prod"), ("host", "x")] ∧
    (mergeOver baseFile.data childFile.data).lookup "db" = some "dev" := by
  refine ⟨?_, ?_, ?_⟩
  · obtain ⟨e, he⟩ := (readInConfig_inheritance badFS "dev.yml" childFile
      badBaseFile (by decide) (by decide) (by decide)).1 (by decide)
    rw [he]; rfl
  · exact ((readInConfig_inheritance exampleFS "dev.yml" childFile baseFile
      (by decide) (by decide) (by decide)).2 rfl).1
  · have h := ((readInConfig_inheritance exampleFS "dev.yml" childFile
      baseFile (by decide) (by decide) (by decide)).2 rfl).2 "db"
    rw [h]; decide

/-! ## C10: RemoveRoleTable -/

/-- C10: `RemoveRoleTable` returns an error — and hence no changed
configuration; in Go both error returns happen before any mutation —
when no role matches the name case-insensitively or when the matched role
has no table matching the (schema, table) pair case-insensitively; on
success it removes exactly the first matching `RoleTable` of the matched
role, and removes the role itself exactly when the removed entry was the
role's last table. -/
theorem removeRoleTable_spec (c : Config) (role table : String) :
    ((∀ r ∈ c.roles, eqFold r.name role = false) →
      c.removeRoleTable role table = .error ("role not found: " ++ role)) ∧
    (∀ ri r, c.roles.findIdx? (fun r => eqFold r.name role) = some ri →
      c.roles[ri]? = some r →
      ((∀ t ∈ r.tables, (eqFold t.name (splitSchema table).2 &&
          eqFold t.schema (splitSchema table).1) = false) →
        c.removeRoleTable role table =
          .error ("table not found: " ++ (splitSchema table).2)) ∧
      (∀ ti, r.tables.findIdx? (fun t => eqFold t.name (splitSchema table).2 &&
          eqFold t.schema (splitSchema table).1) = some ti →
        c.removeRoleTable role table =
          .ok { c with roles :=
            if r.tables.length = 1 then c.roles.eraseIdx ri
            else c.roles.set ri { r with tables := r.tables.eraseIdx ti } })) := by
  constructor
  · intro h
    have hnone : c.roles.findIdx? (fun r => eqFold r.name role) = none :=
      List.findIdx?_eq_none_iff.mpr h
    simp [Config.removeRoleTable, hnone]
  · intro ri r hri hr
    constructor
    · intro ht
      have htn : r.tables.findIdx? (fun t => eqFold t.name (splitSchema table).2 &&
          eqFold t.schema (splitSchema table).1) = none :=
        List.findIdx?_eq_none_iff.mpr ht
      simp [Config.removeRoleTable, hri, hr, htn]
    · intro ti hti
      have hlt : ti < r.tables.length :=
        (List.findIdx?_eq_some_iff_findIdx_eq.mp hti).1
      have hiff : (r.tables.eraseIdx ti).isEmpty = true ↔ r.tables.length = 1 := by
        rw [List.isEmpty_iff_length_eq_zero, List.length_eraseIdx_of_lt hlt]
        omega
      simp only [Config.removeRoleTable, hri, hr, Option.getD_some, hti]
      by_cases hlen : r.tables.length = 1
      · rw [if_pos (hiff.mpr hlen), if_pos hlen]
      · rw [if_neg (fun hc => hlen (hiff.mp hc)), if_neg hlen]

def adminRole : Role :=
  { name := "admin", matchRule := "", tables := [newRoleTable "logs" ""] }

def userRole : Role :=
  { name := "user", matchRule := "",
    tables := [newRoleTable "users" "public", newRoleTable "products" ""] }

def removeConfig : Config :=
  { disableAllowList := false, defaultBlock := true,
    roles := [adminRole, userRole],
    defaultLimit := 20, dbType := "postgres", production := false,
    rtmap := [] }

theorem removeRoleTable_spec_witness :
    removeConfig.removeRoleTable "ghost" "users" =
      .error ("role not found: " ++ "ghost") ∧
    removeConfig.removeRoleTable "user" "public.nothere" =
      .error ("table not found: " ++ "nothere") ∧
    removeConfig.removeRoleTable "User" "PUBLIC.Users" =
      .ok { removeConfig with roles :=
        [adminRole, { userRole with tables := [newRoleTable "products" ""] }] } ∧
    removeConfig.removeRoleTable "admin" "logs" =
      .ok { removeConfig with roles := [userRole] } := by
  refine ⟨?_, ?_, ?_, ?_⟩
  · exact (removeRoleTable_spec removeConfig "ghost" "users").1 (by decide)
  · exact ((removeRoleTable_spec removeConfig "user" "public.nothere").2
      1 userRole (by decide) (by decide)).1 (by decide)
  · exact ((removeRoleTable_spec removeConfig "User" "PUBLIC.Users").2
      1 userRole (by decide) (by decide)).2 0 (by decide)
  · exact ((removeRoleTable_spec removeConfig "admin" "logs").2
      0 adminRole (by decide) (by decide)).2 0 (by decide)

/-! ## C5: AddRoleTable preserves the uniqueness invariants -/

/-- The case-insensitive identity of a role. -/
def roleKey (r : Role) : List Char := lowerKey r.name

/-- The case-insensitive identity of a table entry within a role. -/
def tableKey (t : RoleTable) : List Char × List Char :=
  (lowerKey t.schema, lowerKey t.name)

/-- The configuration invariant of the claim: role names are unique
case-insensitively, and within each role the (schema, table-name) pairs
are unique case-insensitively. -/
def configInv (c : Config) : Prop :=
  (c.roles.map roleKey).Nodup ∧ ∀ r ∈ c.roles, (r.tables.map tableKey).Nodup

instance (c : Config) : Decidable (configInv c) := by
  unfold configInv; infer_instance

theorem tableKey_setRTConf (t : RoleTable) (conf : RTConf) :
    tableKey (setRTConf t conf) = tableKey t := by
  cases conf <;> rfl

theorem tMatch_iff (t : RoleTable) (tname schema : String) :
    (eqFold t.name tname && eqFold t.schema schema) = true ↔
      tableKey t = (lowerKey schema, lowerKey tname) := by
  simp [eqFold, tableKey, Prod.ext_iff, and_comm]

theorem rMatch_iff (r : Role) (role : String) :
    eqFold r.name role = true ↔ roleKey r = lowerKey role := by
  simp [eqFold, roleKey]

theorem updTables_map_key (tname schema : String) (conf : RTConf)
    (ts : List RoleTable) :
    (updTables tname schema conf ts).map tableKey =
      if ts.any (fun t => eqFold t.name tname && eqFold t.schema schema) then
        ts.map tableKey
      else
        ts.map tableKey ++ [(lowerKey schema, lowerKey tname)] := by
  induction ts with
  | nil =>
    have hk : tableKey (setRTConf (newRoleTable tname schema) conf) =
        (lowerKey schema, lowerKey tname) := by rw [tableKey_setRTConf]; rfl
    simp [updTables, hk]
  | cons t ts ih =>
    by_cases h : (eqFold t.name tname && eqFold t.schema schema) = true
    · simp [updTables, h, tableKey_setRTConf]
    · simp only [Bool.not_eq_true] at h
      by_cases h2 : ts.any (fun t => eqFold t.name tname && eqFold t.schema schema) = true
      · simp [updTables, h, h2, ih]
      · simp only [Bool.not_eq_true] at h2
        simp [updTables, h, h2, ih]

theorem updTables_nodup (tname schema : String) (conf : RTConf)
    (ts : List RoleTable) (h : (ts.map tableKey).Nodup) :
    ((updTables tname schema conf ts).map tableKey).Nodup := by
  rw [updTables_map_key]
  by_cases hany : ts.any (fun t => eqFold t.name tname && eqFold t.schema schema) = true
  · simpa [hany] using h
  · simp only [Bool.not_eq_true] at hany
    have hknotin : (lowerKey schema, lowerKey tname) ∉ ts.map tableKey := by
      intro hmem
      obtain ⟨t, htmem, htk⟩ := List.mem_map.mp hmem
      have hfalse := List.any_eq_false.mp hany t htmem
      exact hfalse ((tMatch_iff t tname schema).mpr htk)
    simp [hany, List.nodup_append, h, hknotin]

theorem roleKey_addTableToRole (r : Role) (table : String) (conf : RTConf) :
    roleKey (addTableToRole r table conf) = roleKey r := rfl

theorem addTableToRole_tables_nodup (r : Role) (table : String) (conf : RTConf)
    (h : (r.tables.map tableKey).Nodup) :
    ((addTableToRole r table conf).tables.map tableKey).Nodup :=
  updTables_nodup (splitSchema table).2 (splitSchema table).1 conf r.tables h

theorem updRoles_map_key (role table : String) (conf : RTConf)
    (rs : List Role) :
    (updRoles role table conf rs).map roleKey =
      if rs.any (fun r => eqFold r.name role) then rs.map roleKey
      else rs.map roleKey ++ [lowerKey role] := by
  induction rs with
  | nil =>
    have hk : roleKey (addTableToRole
        { name := role, matchRule := "", tables := [] } table conf) =
        lowerKey role := rfl
    simp [updRoles, hk]
  | cons r rs ih =>
    by_cases h : eqFold r.name role = true
    · simp [updRoles, h, roleKey_addTableToRole]
    · simp only [Bool.not_eq_true] at h
      by_cases h2 : rs.any (fun r => eqFold r.name role) = true
      · simp [updRoles, h, h2, ih]
      · simp only [Bool.not_eq_true] at h2
        simp [updRoles, h, h2, ih]

theorem updRoles_nodup (role table : String) (conf : RTConf)
    (rs : List Role) (h : (rs.map roleKey).Nodup) :
    ((updRoles role table conf rs).map roleKey).Nodup := by
  rw [updRoles_map_key]
  by_cases hany : rs.any (fun r => eqFold r.name role) = true
  · simpa [hany] using h
  · simp only [Bool.not_eq_true] at hany
    have hknotin : lowerKey role ∉ rs.map roleKey := by
      intro hmem
      obtain ⟨r, hrmem, hrk⟩ := List.mem_map.mp hmem
      have hfalse := List.any_eq_false.mp hany r hrmem
      exact hfalse ((rMatch_iff r role).mpr hrk)
    simp [hany, List.nodup_append, h, hknotin]

theorem mem_updRoles (role table : String) (conf : RTConf) (rs : List Role)
    (rx : Role) (h : rx ∈ updRoles role table conf rs) :
    (rx ∈ rs) ∨ (∃ r ∈ rs, rx = addTableToRole r table conf) ∨
      rx = addTableToRole { name := role, matchRule := "", tables := [] }
        table conf := by
  induction rs with
  | nil =>
    simp [updRoles] at h
    exact Or.inr (Or.inr h)
  | cons r rs ih =>
    by_cases hm : eqFold r.name role = true
    · simp only [updRoles, hm, if_true, List.mem_cons] at h
      rcases h with h | h
      · exact Or.inr (Or.inl ⟨r, List.mem_cons_self r rs, h⟩)
      · exact Or.inl (List.mem_cons_of_mem r h)
    · simp only [Bool.not_eq_true] at hm
      simp only [updRoles, hm, Bool.false_eq_true, if_false, List.mem_cons] at h
      rcases h with h | h
      · exact Or.inl (by simp [h])
      · rcases ih h with h1 | ⟨r2, hr2, hx⟩ | h3
        · exact Or.inl (List.mem_cons_of_mem r h1)
        · exact Or.inr (Or.inl ⟨r2, List.mem_cons_of_mem r hr2, hx⟩)
        · exact Or.inr (Or.inr h3)

/-- C5: `AddRoleTable` preserves the configuration invariant â role names
unique case-insensitively, (schema, table-name) pairs unique
case-insensitively within each role â for every role name, optionally
schema-qualified table name and operation policy; moreover the role list
keeps its length when a case-insensitive role match exists (in-place
update) and grows by exactly one entry otherwise (append). -/
theorem addRoleTable_preserves_invariant (c : Config) (role table : String)
    (conf : RTConf) (h : configInv c) :
    configInv (c.addRoleTable role table conf) ∧
    ((∃ r ∈ c.roles, eqFold r.name role = true) →
      (c.addRoleTable role table conf).roles.length = c.roles.length) ∧
    ((∀ r ∈ c.roles, eqFold r.name role = false) →
      (c.addRoleTable role table conf).roles.length = c.roles.length + 1) := by
  obtain ⟨h1, h2⟩ := h
  refine ⟨⟨updRoles_nodup role table conf c.roles h1, ?_⟩, ?_, ?_⟩
  · intro rx hrx
    rcases mem_updRoles role table conf c.roles rx hrx with
      hmem | ⟨r, hrm, hx⟩ | hx
    · exact h2 rx hmem
    · subst hx
      exact addTableToRole_tables_nodup r table conf (h2 r hrm)
    · subst hx
      exact addTableToRole_tables_nodup _ table conf (by simp)
  · rintro ⟨r, hrm, hmt⟩
    have hany : c.roles.any (fun r => eqFold r.name role) = true :=
      List.any_eq_true.mpr ⟨r, hrm, hmt⟩
    have hm := updRoles_map_key role table conf c.roles
    rw [if_pos hany] at hm
    calc (c.addRoleTable role table conf).roles.length
        = ((updRoles role table conf c.roles).map roleKey).length :=
          (List.length_map _ _).symm
      _ = (c.roles.map roleKey).length := by rw [hm]
      _ = c.roles.length := List.length_map _ _
  · intro hall
    have hany : c.roles.any (fun r => eqFold r.name role) = false := by
      rw [List.any_eq_false]
      intro x hx
      simp [hall x hx]
    have hm := updRoles_map_key role table conf c.roles
    rw [hany] at hm
    simp only [Bool.false_eq_true, if_false] at hm
    calc (c.addRoleTable role table conf).roles.length
        = ((updRoles role table conf c.roles).map roleKey).length :=
          (List.length_map _ _).symm
      _ = ((c.roles.map roleKey) ++ [lowerKey role]).length := by rw [hm]
      _ = c.roles.length + 1 := by simp

def invRole : Role :=
  { name := "user", matchRule := "", tables := [newRoleTable "users" "public"] }

def invConfig : Config :=
  { disableAllowList := false, defaultBlock := true, roles := [invRole],
    defaultLimit := 20, dbType := "postgres", production := false,
    rtmap := [] }

def invInsert : RTConf :=
  .insert { filters := [], columns := [], presets := [], block := false }

theorem addRoleTable_preserves_invariant_witness :
    configInv invConfig ∧
    configInv (invConfig.addRoleTable "USER" "public.Products" invInsert) ∧
    (invConfig.addRoleTable "USER" "public.Products" invInsert).roles.length
      = 1 := by
  refine ⟨by decide, ?_, ?_⟩
  · exact (addRoleTable_preserves_invariant invConfig "USER" "public.Products"
      invInsert (by decide)).1
  · exact (addRoleTable_preserves_invariant invConfig "USER" "public.Products"
      invInsert (by decide)).2.1 ⟨invRole, by decide, by decide⟩

end GraphJin
